import Mathlib

/-!
Verification of the flow-mesh generation pipeline of `animated-flow-ts`.

The development shallowly embeds the pure core of `src/flow/shared.ts`
(`smooth`, `createFlowFieldFromData`, `trace`, `getStreamLines`,
`createStreamLinesMesh`) and the processor pair of `src/flow/processors.ts`.
JavaScript numbers are modelled by an arbitrary linear ordered field `α`
(instantiated at `ℚ` or `ℝ` in concrete witnesses); `Math.sqrt` and the
Gaussian weight `Math.exp(-d*d/(sigma*sigma))` are passed in as function
parameters `sq : α → α` and `w : ℤ → α`, with their defining properties
taken as hypotheses where a theorem needs them.  The pseudo-random source
`createRand()` of `src/core/util.ts` is modelled by the stream of values it
yields, a parameter `rands : ℕ → α` consumed in call order.  The numeric
settings of `src/flow/settings.ts` (`segmentLength`, `speedScale`,
`minSpeedThreshold`, `verticesPerLine`, ...) enter the contracts as
explicit parameters, as in the specified contracts of §4.1–§4.5.
-/

namespace Flow

/-- The constant `minWeightThreshold = 0.001` from `src/flow/settings.ts`. -/
def minWeightThreshold (α : Type) [LinearOrderedField α] : α := 1 / 1000

/-- The constant `verticesPerLine = 100` from `src/flow/settings.ts`. -/
def verticesPerLine : ℕ := 100

/-- The constant `linesPerVisualization = 4000` from `src/flow/settings.ts`. -/
def linesPerVisualization : ℕ := 4000

/-- A timestamped streamline vertex, from `StreamLineVertex` in
`src/flow/types.ts`: a position in output units and a time in seconds. -/
structure Vertex (α : Type) where
  position : α × α
  time : α
deriving DecidableEq, Repr

/-- The mesh of `createStreamLinesMesh` (src/flow/shared.ts, lines 289–292):
a flat vertex attribute buffer (9 numbers per vertex) and an index buffer. -/
structure Mesh (α : Type) where
  vertexData : List α
  indexData : List ℕ
deriving DecidableEq, Repr

/-- The velocity grid `FlowData` of `src/flow/types.ts`: a flat interleaved
row-major 2-channel buffer (modelled as a function of the flat index),
its shape, and the cell size in output units. -/
structure FlowData (α : Type) where
  data : ℕ → α
  columns : ℕ
  rows : ℕ
  cellSize : α

/-- The transferable form of the grid used at the worker boundary
(`TransferableFlowData` in `src/flow/types.ts`): the raw buffer together
with the shape fields. -/
structure TransferableFlowData (α : Type) where
  buffer : ℕ → α
  columns : ℕ
  rows : ℕ
  cellSize : α

variable {α : Type} [LinearOrderedField α]

/-! ### Grid smoother (`smooth`, src/flow/shared.ts lines 34–88) -/

/-- Bounds test `0 <= i && i < n` for the `continue` guards of `smooth`
(src/flow/shared.ts, lines 46 and 71). -/
def inRange (n : ℕ) (i : ℤ) : Bool :=
  decide (0 ≤ i) && decide (i < (n : ℤ))

/-- The kernel offsets `d = -halfRadius .. halfRadius` scanned by each
smoothing pass (src/flow/shared.ts, lines 45 and 70); `h` is
`halfRadius = Math.round(3 * sigma)`. -/
def kernelOffsets (h : ℕ) : List ℤ :=
  (List.range (2 * h + 1)).map (fun (j : ℕ) => (j : ℤ) - (h : ℤ))

/-- The accumulation loop shared by both smoothing passes
(src/flow/shared.ts, lines 41–55 and 66–80): starting from
`(totalWeight, s0, s1) = (0, 0, 0)`, each in-bounds offset `d` adds
`w d` to the weight and `w d * vᵢ d` to each channel sum; out-of-bounds
offsets are skipped (`continue`). -/
def smoothAccum (w : ℤ → α) (h : ℕ) (inB : ℤ → Bool) (v0 v1 : ℤ → α) : α × α × α :=
  (kernelOffsets h).foldl
    (fun acc d =>
      if inB d then (acc.1 + w d, acc.2.1 + w d * v0 d, acc.2.2 + w d * v1 d) else acc)
    (0, 0, 0)

/-- The accumulator of the horizontal pass at cell `(x, y)`
(src/flow/shared.ts, lines 41–55): offsets move along `x`, and the two
channels read `data[2 * (y * columns + (x + d)) + c]`. -/
def hAccum (w : ℤ → α) (data : ℕ → α) (columns h x y : ℕ) : α × α × α :=
  smoothAccum w h (fun d => inRange columns ((x : ℤ) + d))
    (fun d => data (2 * (y * columns + ((x : ℤ) + d).toNat)))
    (fun d => data (2 * (y * columns + ((x : ℤ) + d).toNat) + 1))

/-- The output step shared by both passes (src/flow/shared.ts, lines 57–58
and 82–83): each channel is `0` when `totalWeight < settings.minWeightThreshold`
and the weighted average `s / totalWeight` otherwise. -/
def weightedOut (acc : α × α × α) : α × α :=
  (if acc.1 < minWeightThreshold α then 0 else acc.2.1 / acc.1,
   if acc.1 < minWeightThreshold α then 0 else acc.2.2 / acc.1)

/-- The two channels written by the horizontal pass at cell `(x, y)`
(src/flow/shared.ts, lines 57–58). -/
def horizontalCell (w : ℤ → α) (data : ℕ → α) (columns h x y : ℕ) : α × α :=
  weightedOut (hAccum w data columns h x y)

/-- The accumulator of the vertical pass at cell `(x, y)`
(src/flow/shared.ts, lines 66–80): offsets move along `y`, reading the
intermediate `horizontal` result of the first pass. -/
def vAccum (w : ℤ → α) (data : ℕ → α) (columns rows h x y : ℕ) : α × α × α :=
  smoothAccum w h (fun d => inRange rows ((y : ℤ) + d))
    (fun d => (horizontalCell w data columns h x ((y : ℤ) + d).toNat).1)
    (fun d => (horizontalCell w data columns h x ((y : ℤ) + d).toNat).2)

/-- The two channels of the final smoothed grid at cell `(x, y)`
(src/flow/shared.ts, lines 82–83): the vertical pass applied to the
result of the horizontal pass. -/
def smoothCell (w : ℤ → α) (data : ℕ → α) (columns rows h x y : ℕ) : α × α :=
  weightedOut (vAccum w data columns rows h x y)

/-! ### Field sampler (`createFlowFieldFromData`, src/flow/shared.ts lines 99–118) -/

/-- JavaScript `Math.round`: round half toward positive infinity. -/
def jround [FloorRing α] (q : α) : ℤ := ⌊q + 1 / 2⌋

/-- The field closure of `createFlowFieldFromData` (src/flow/shared.ts,
lines 102–115): round the query point to the nearest cell, return `(0, 0)`
out of `[0, columns) × [0, rows)`, and the smoothed cell value otherwise.
`w` and `h` stand for the Gaussian weight function and half-radius induced
by `settings.smoothing`. -/
def createFlowFieldFromData [FloorRing α] (w : ℤ → α) (h : ℕ) (fd : FlowData α) :
    α → α → α × α := fun x y =>
  if jround x < 0 ∨ (fd.columns : ℤ) ≤ jround x then (0, 0)
  else if jround y < 0 ∨ (fd.rows : ℤ) ≤ jround y then (0, 0)
  else smoothCell w fd.data fd.columns fd.rows h (jround x).toNat (jround y).toNat

/-! ### Streamline tracer (`trace`, src/flow/shared.ts lines 129–163) -/

/-- The scaled horizontal velocity sample `vx = f(x, y)[0] * speedScale`
from the loop body of `trace` (src/flow/shared.ts, lines 142–143). -/
def vxAt (f : α → α → α × α) (speedScale x y : α) : α :=
  (f x y).1 * speedScale

/-- The scaled vertical velocity sample `vy = f(x, y)[1] * speedScale`
from the loop body of `trace` (src/flow/shared.ts, lines 142–144). -/
def vyAt (f : α → α → α × α) (speedScale x y : α) : α :=
  (f x y).2 * speedScale

/-- The speed `v = Math.sqrt(vx * vx + vy * vy)` from `trace`
(src/flow/shared.ts, line 145), with `sq` standing for `Math.sqrt`. -/
def speedAt (sq : α → α) (f : α → α → α × α) (speedScale x y : α) : α :=
  sq (vxAt f speedScale x y * vxAt f speedScale x y +
      vyAt f speedScale x y * vyAt f speedScale x y)

/-- The advanced x position `x + (vx / v) * segmentLength` from `trace`
(src/flow/shared.ts, lines 149–151). -/
def nextX (sq : α → α) (f : α → α → α × α) (speedScale segLen x y : α) : α :=
  x + vxAt f speedScale x y / speedAt sq f speedScale x y * segLen

/-- The advanced y position `y + (vy / v) * segmentLength` from `trace`
(src/flow/shared.ts, lines 150–152). -/
def nextY (sq : α → α) (f : α → α → α × α) (speedScale segLen x y : α) : α :=
  y + vyAt f speedScale x y / speedAt sq f speedScale x y * segLen

/-- The advanced time `t + segmentLength / v` from `trace`
(src/flow/shared.ts, lines 153–154). -/
def nextT (sq : α → α) (f : α → α → α × α) (speedScale segLen x y t : α) : α :=
  t + segLen / speedAt sq f speedScale x y

/-- The integration loop of `trace` (src/flow/shared.ts, lines 141–160):
starting at grid position `(x, y)` and time `t` with `n` iterations left,
return the list of vertices pushed after the seed vertex.  Each iteration
either stops at the speed floor (`v < minSpeed`, returning what has been
accumulated, here `[]`) or advances and pushes a vertex at the scaled
position with the advanced time. -/
def traceFrom (sq : α → α) (f : α → α → α × α) (speedScale segLen minSpeed cellSize : α) :
    ℕ → α → α → α → List (Vertex α)
  | 0, _, _, _ => []
  | n + 1, x, y, t =>
    if speedAt sq f speedScale x y < minSpeed then []
    else
      ⟨(nextX sq f speedScale segLen x y * cellSize,
        nextY sq f speedScale segLen x y * cellSize),
        nextT sq f speedScale segLen x y t⟩ ::
      traceFrom sq f speedScale segLen minSpeed cellSize n
        (nextX sq f speedScale segLen x y) (nextY sq f speedScale segLen x y)
        (nextT sq f speedScale segLen x y t)

/-- The particle tracer `trace` of src/flow/shared.ts (lines 129–163): the
seed vertex `{position: (x0 * cellSize, y0 * cellSize), time: 0}` followed
by up to `maxSteps` integrated vertices.  In the source the loop bound is
`settings.verticesPerLine`, the step is `settings.segmentLength`, the speed
floor is `settings.minSpeedThreshold` and the scale is
`settings.speedScale`; they are parameters here, as in the contract of
spec §4.3. -/
def trace (sq : α → α) (f : α → α → α × α) (speedScale segLen minSpeed cellSize : α)
    (maxSteps : ℕ) (x0 y0 : α) : List (Vertex α) :=
  ⟨(x0 * cellSize, y0 * cellSize), 0⟩ ::
    traceFrom sq f speedScale segLen minSpeed cellSize maxSteps x0 y0 0

/-! ### Trace batch generator (`getStreamLines`, src/flow/shared.ts lines 174–185) -/

/-- The seeding loop of `getStreamLines` (src/flow/shared.ts, lines
179–182) with `n` iterations left and `i` iterations already done: each
iteration draws two values of the random stream (in argument order of
`trace(f, round(rand() * columns), round(rand() * rows), cellSize)`) and
traces from the rounded seed. -/
def getStreamLinesLoop [FloorRing α] (sq : α → α) (f : α → α → α × α)
    (columns rows : ℕ) (cellSize speedScale segLen minSpeed : α) (maxSteps : ℕ)
    (rands : ℕ → α) : ℕ → ℕ → List (List (Vertex α))
  | 0, _ => []
  | n + 1, i =>
    trace sq f speedScale segLen minSpeed cellSize maxSteps
      ((jround (rands (2 * i) * (columns : α)) : ℤ) : α)
      ((jround (rands (2 * i + 1) * (rows : α)) : ℤ) : α) ::
    getStreamLinesLoop sq f columns rows cellSize speedScale segLen minSpeed maxSteps
      rands n (i + 1)

/-- The batch generator `getStreamLines` of src/flow/shared.ts (lines
174–185): `count` traces (`settings.linesPerVisualization` in the source)
seeded from the supplied random stream, in draw order. -/
def getStreamLines [FloorRing α] (sq : α → α) (f : α → α → α × α)
    (columns rows : ℕ) (cellSize speedScale segLen minSpeed : α) (maxSteps : ℕ)
    (rands : ℕ → α) (count : ℕ) : List (List (Vertex α)) :=
  getStreamLinesLoop sq f columns rows cellSize speedScale segLen minSpeed maxSteps
    rands count 0

/-! ### Ribbon mesh builder (`createStreamLinesMesh`, src/flow/shared.ts lines 194–293) -/

/-- The display speed `speed = 1 / (t1 - t0)` of a segment
(src/flow/shared.ts, line 231). -/
def segSpeed (p0 p1 : Vertex α) : α := 1 / (p1.time - p0.time)

/-- The segment length `l = Math.sqrt((x1-x0)² + (y1-y0)²)`
(src/flow/shared.ts, line 233), with `sq` standing for `Math.sqrt`. -/
def segLenOf (sq : α → α) (p0 p1 : Vertex α) : α :=
  sq ((p1.position.1 - p0.position.1) * (p1.position.1 - p0.position.1) +
      (p1.position.2 - p0.position.2) * (p1.position.2 - p0.position.2))

/-- The edge-normal component `ex = -(y1 - y0) / l` (src/flow/shared.ts,
line 234). -/
def segEx (sq : α → α) (p0 p1 : Vertex α) : α :=
  -(p1.position.2 - p0.position.2) / segLenOf sq p0 p1

/-- The edge-normal component `ey = (x1 - x0) / l` (src/flow/shared.ts,
line 235). -/
def segEy (sq : α → α) (p0 p1 : Vertex α) : α :=
  (p1.position.1 - p0.position.1) / segLenOf sq p0 p1

/-- The 36 numbers (4 vertices of 9 attributes) pushed for one segment
(src/flow/shared.ts, lines 237–274): per vertex
`[x, y, ex, ey, side, t, totalTime, speed, random]`. -/
def segVertexData (sq : α → α) (random totalTime : α) (p0 p1 : Vertex α) : List α :=
  [p0.position.1, p0.position.2, segEx sq p0 p1, segEy sq p0 p1, -1, p0.time,
     totalTime, segSpeed p0 p1, random,
   p0.position.1, p0.position.2, -segEx sq p0 p1, -segEy sq p0 p1, 1, p0.time,
     totalTime, segSpeed p0 p1, random,
   p1.position.1, p1.position.2, segEx sq p0 p1, segEy sq p0 p1, -1, p1.time,
     totalTime, segSpeed p0 p1, random,
   p1.position.1, p1.position.2, -segEx sq p0 p1, -segEy sq p0 p1, 1, p1.time,
     totalTime, segSpeed p0 p1, random]

/-- The 6 indices pushed for one segment over the running vertex count
`base` (src/flow/shared.ts, lines 276–283). -/
def segIndexData (base : ℕ) : List ℕ :=
  [base, base + 1, base + 2, base + 1, base + 3, base + 2]

/-- The index pattern of `n` consecutive segments starting at running
vertex count `vc`: each segment contributes `segIndexData` at its own base
and advances the base by 4. -/
def segIndicesFrom : ℕ → ℕ → List ℕ
  | _, 0 => []
  | vc, n + 1 => segIndexData vc ++ segIndicesFrom (vc + 4) n

/-- The inner segment loop of `createStreamLinesMesh` (src/flow/shared.ts,
lines 222–286) over one line: for each consecutive vertex pair push 36
vertex numbers and 6 indices, incrementing the running vertex count by 4. -/
def buildSegments (sq : α → α) (random totalTime : α) :
    List (Vertex α) → ℕ → List α × List ℕ
  | [], _ => ([], [])
  | [_], _ => ([], [])
  | p0 :: p1 :: tl, vc =>
    let r := buildSegments sq random totalTime (p1 :: tl) (vc + 4)
    (segVertexData sq random totalTime p0 p1 ++ r.1, segIndexData vc ++ r.2)

/-- The `totalTime` of a line: the time of its last vertex
(src/flow/shared.ts, lines 219–220); `line[line.length - 1]!` is only
evaluated on nonempty lines, the default `0` is never read there. -/
def lineTotalTime (line : List (Vertex α)) : α :=
  ((line.getLast?).map Vertex.time).getD 0

/-- The outer line loop of `createStreamLinesMesh` (src/flow/shared.ts,
lines 210–287) without the scheduling checks: each line draws one random
value (`rands j` in call order) and appends its segments' vertex and index
data; the running vertex count advances by 4 per segment. -/
def buildLines (sq : α → α) (rands : ℕ → α) :
    List (List (Vertex α)) → ℕ → ℕ → List α × List ℕ
  | [], _, _ => ([], [])
  | line :: tl, j, vc =>
    let seg := buildSegments sq (rands j) (lineTotalTime line) line vc
    let r := buildLines sq rands tl (j + 1) (vc + 4 * (line.length - 1))
    (seg.1 ++ r.1, seg.2 ++ r.2)

/-- The number of mesh segments contributed by a batch of lines:
`Σᵢ (kᵢ - 1)` where `kᵢ` is the vertex count of line `i`. -/
def totalSegments (lines : List (List (Vertex α))) : ℕ :=
  (lines.map (fun l => l.length - 1)).sum

/-- The complete mesh built by `createStreamLinesMesh`
(src/flow/shared.ts, lines 194–293) from an already-traced batch of lines:
the concatenated vertex and index data of all lines in order. -/
def createStreamLinesMesh (sq : α → α) (rands : ℕ → α)
    (lines : List (List (Vertex α))) : Mesh α :=
  ⟨(buildLines sq rands lines 0 0).1, (buildLines sq rands lines 0 0).2⟩

/-! ### Cooperative pipeline driver (src/flow/shared.ts lines 208–216) -/

/-- Modelled from the spec: the helper `rest(signal)` of `src/core/util.ts`
is not under src/.  Per spec §4.6, a yield point is a true suspension that
checks the cancellation signal and, when it is set, resolves the call as
cancelled; `restAborts signal k` tells whether the yield taken at the
`k`-th clock sample aborts. -/
def restAborts (signal : ℕ → Bool) (k : ℕ) : Bool := signal k

/-- The chunked line loop of `createStreamLinesMesh` with its scheduling
checks (src/flow/shared.ts, lines 208–216 around the loop of lines
210–287): before building each line, sample `performance.now()` (the
`k`-th value of the clock stream); when more than `quanta` milliseconds
elapsed since the last rest, reset the rest time and yield, aborting the
whole call if the cancellation signal is set at that point.  `.error ()`
models the promise rejecting as cancelled. -/
def driveLoop (sq : α → α) (rands : ℕ → α) (quanta : ℚ) (clock : ℕ → ℚ)
    (signal : ℕ → Bool) :
    List (List (Vertex α)) → ℕ → ℕ → ℕ → ℚ → List α × List ℕ → Except Unit (Mesh α)
  | [], _, _, _, _, acc => .ok ⟨acc.1, acc.2⟩
  | line :: tl, j, vc, k, restTime, acc =>
    if quanta < clock k - restTime then
      if restAborts signal k then .error ()
      else
        driveLoop sq rands quanta clock signal tl (j + 1) (vc + 4 * (line.length - 1))
          (k + 1) (clock k)
          (acc.1 ++ (buildSegments sq (rands j) (lineTotalTime line) line vc).1,
           acc.2 ++ (buildSegments sq (rands j) (lineTotalTime line) line vc).2)
    else
      driveLoop sq rands quanta clock signal tl (j + 1) (vc + 4 * (line.length - 1))
        (k + 1) restTime
        (acc.1 ++ (buildSegments sq (rands j) (lineTotalTime line) line vc).1,
         acc.2 ++ (buildSegments sq (rands j) (lineTotalTime line) line vc).2)

/-- The abortable mesh construction of `createStreamLinesMesh`
(src/flow/shared.ts, lines 194–293) on an already-traced batch: the rest
time starts at the initial `performance.now()` sample (`clock 0`) and the
loop consumes clock samples `1, 2, ...`, one per line. -/
def createStreamLinesMeshAsync (sq : α → α) (rands : ℕ → α) (quanta : ℚ)
    (clock : ℕ → ℚ) (signal : ℕ → Bool) (lines : List (List (Vertex α))) :
    Except Unit (Mesh α) :=
  driveLoop sq rands quanta clock signal lines 0 0 1 (clock 0) ([], [])

/-! ### Execution context adapter (`src/flow/processors.ts`) -/

/-- The full pipeline of `createStreamLinesMesh` applied to a grid
(src/flow/shared.ts, lines 204–206 then the driver loop): smooth and wrap
the grid (`createFlowFieldFromData`), trace the batch (`getStreamLines`),
then build the mesh under the cooperative driver.  `randsSeeds` and
`randsMesh` are the two independent `createRand()` streams drawn at lines
177 and 206 of the source. -/
def createStreamLinesMeshFromData [FloorRing α] (w : ℤ → α) (h : ℕ) (sq : α → α)
    (randsSeeds randsMesh : ℕ → α) (speedScale segLen minSpeed : α)
    (maxSteps count : ℕ) (quanta : ℚ) (clock : ℕ → ℚ) (signal : ℕ → Bool)
    (fd : FlowData α) : Except Unit (Mesh α) :=
  createStreamLinesMeshAsync sq randsMesh quanta clock signal
    (getStreamLines sq (createFlowFieldFromData w h fd) fd.columns fd.rows fd.cellSize
      speedScale segLen minSpeed maxSteps randsSeeds count)

/-- The serialization step of `WorkerFlowProcessor.createStreamLinesMesh`
(src/flow/processors.ts, lines 55–67): the grid's backing buffer is
transferred, not copied, alongside the shape fields. -/
def toTransferable (fd : FlowData α) : TransferableFlowData α :=
  ⟨fd.data, fd.columns, fd.rows, fd.cellSize⟩

/-- The reconstruction of a grid from its transferred form on the worker
side. -/
def ofTransferable (t : TransferableFlowData α) : FlowData α :=
  ⟨t.buffer, t.columns, t.rows, t.cellSize⟩

/-- The local processor `MainFlowProcessor.createStreamLinesMesh`
(src/flow/processors.ts, lines 29–39): run the shared pipeline in
place. -/
def mainFlowProcessor [FloorRing α] (w : ℤ → α) (h : ℕ) (sq : α → α)
    (randsSeeds randsMesh : ℕ → α) (speedScale segLen minSpeed : α)
    (maxSteps count : ℕ) (quanta : ℚ) (clock : ℕ → ℚ) (signal : ℕ → Bool)
    (fd : FlowData α) : Except Unit (Mesh α) :=
  createStreamLinesMeshFromData w h sq randsSeeds randsMesh speedScale segLen minSpeed
    maxSteps count quanta clock signal fd

/-- Modelled from the spec: the worker module `animated-flow-ts/workers/flow`
registered for `connection.invoke("createStreamLinesMesh", ...)` is not
under src/.  Per spec §4.7, the delegated context reconstructs the grid
from the transferred buffer, invokes the identical shared pipeline there,
and returns the vertex and index buffers by transfer. -/
def workerRemoteInvoke [FloorRing α] (w : ℤ → α) (h : ℕ) (sq : α → α)
    (randsSeeds randsMesh : ℕ → α) (speedScale segLen minSpeed : α)
    (maxSteps count : ℕ) (quanta : ℚ) (clock : ℕ → ℚ) (signal : ℕ → Bool)
    (t : TransferableFlowData α) : Except Unit (List α × List ℕ) :=
  match createStreamLinesMeshFromData w h sq randsSeeds randsMesh speedScale segLen
      minSpeed maxSteps count quanta clock signal (ofTransferable t) with
  | .error e => .error e
  | .ok m => .ok (m.vertexData, m.indexData)

/-- Modelled from the spec: `throwIfAborted(signal)` of `src/core/util.ts`
is not under src/.  Per spec §4.7 and §7, the delegated call carries an
extra boundary-crossing cancellation: when the signal is already set at
the pre-invoke check (src/flow/processors.ts, line 53) the call rejects
before dispatching to the worker.  `signal 0` is the signal's state at
that pre-invoke moment, which precedes the driver's checkpoint samples
`1, 2, ...`. -/
def throwIfAborted (signal : ℕ → Bool) : Except Unit Unit :=
  if signal 0 then .error () else .ok ()

/-- The delegated processor `WorkerFlowProcessor.createStreamLinesMesh`
(src/flow/processors.ts, lines 44–73): await the connection, abort if the
signal is already set (`throwIfAborted(signal)`, line 53), serialize the
grid by transfer, invoke the remote pipeline, and rebuild the typed
arrays from the transferred result buffers. -/
def workerFlowProcessor [FloorRing α] (w : ℤ → α) (h : ℕ) (sq : α → α)
    (randsSeeds randsMesh : ℕ → α) (speedScale segLen minSpeed : α)
    (maxSteps count : ℕ) (quanta : ℚ) (clock : ℕ → ℚ) (signal : ℕ → Bool)
    (fd : FlowData α) : Except Unit (Mesh α) :=
  match throwIfAborted signal with
  | .error e => .error e
  | .ok _ =>
    match workerRemoteInvoke w h sq randsSeeds randsMesh speedScale segLen minSpeed
        maxSteps count quanta clock signal (toTransferable fd) with
    | .error e => .error e
    | .ok r => .ok ⟨r.1, r.2⟩

/-! ### Theorems about the tracer -/

theorem traceFrom_length_le (sq : α → α) (f : α → α → α × α)
    (speedScale segLen minSpeed cellSize : α) :
    ∀ (n : ℕ) (x y t : α),
      (traceFrom sq f speedScale segLen minSpeed cellSize n x y t).length ≤ n := by
  intro n
  induction n with
  | zero => intro x y t; simp [traceFrom]
  | succ n ih =>
    intro x y t
    rw [traceFrom]
    split
    · simp
    · simpa using ih _ _ _

theorem traceFrom_time_chain (sq : α → α) (f : α → α → α × α)
    (speedScale segLen minSpeed cellSize : α)
    (hseg : 0 < segLen) (hmin : 0 < minSpeed) :
    ∀ (n : ℕ) (x y t : α),
      List.Chain (· < ·) t
        ((traceFrom sq f speedScale segLen minSpeed cellSize n x y t).map Vertex.time) := by
  intro n
  induction n with
  | zero => intro x y t; simp [traceFrom]
  | succ n ih =>
    intro x y t
    rw [traceFrom]
    split
    · simp
    · rename_i hstop
      have hv : 0 < speedAt sq f speedScale x y :=
        lt_of_lt_of_le hmin (not_lt.mp hstop)
      refine List.Chain.cons ?_ (ih _ _ _)
      have : 0 < segLen / speedAt sq f speedScale x y := div_pos hseg hv
      simpa [nextT] using this

/-- C2: for every field, seed point and positive step length (with a
positive speed floor, as `settings.minSpeedThreshold = 0.001` is), `trace`
returns at least one vertex and at most `maxSteps + 1` vertices, starting
at the seed with time `0`, with strictly increasing time values; the
function is structurally recursive on the step budget, so it terminates
after finitely many steps. -/
theorem C2_trace_shape (sq : α → α) (f : α → α → α × α)
    (speedScale segLen minSpeed cellSize x0 y0 : α) (maxSteps : ℕ)
    (hseg : 0 < segLen) (hmin : 0 < minSpeed) :
    1 ≤ (trace sq f speedScale segLen minSpeed cellSize maxSteps x0 y0).length ∧
    (trace sq f speedScale segLen minSpeed cellSize maxSteps x0 y0).length ≤ maxSteps + 1 ∧
    (trace sq f speedScale segLen minSpeed cellSize maxSteps x0 y0).head? =
      some ⟨(x0 * cellSize, y0 * cellSize), 0⟩ ∧
    ((trace sq f speedScale segLen minSpeed cellSize maxSteps x0 y0).map Vertex.time).Chain'
      (· < ·) := by
  refine ⟨by simp [trace], ?_, by simp [trace], ?_⟩
  · have := traceFrom_length_le sq f speedScale segLen minSpeed cellSize maxSteps x0 y0 0
    simpa [trace] using Nat.succ_le_succ this
  · have := traceFrom_time_chain sq f speedScale segLen minSpeed cellSize hseg hmin
      maxSteps x0 y0 0
    simpa [trace, List.Chain'] using this

/-- Witness for C2 at a concrete input: the zero field over `ℚ`, unit
parameters, seed `(0, 0)`, `maxSteps = 2`. -/
theorem C2_trace_shape_witness :
    (0 : ℚ) < 1 ∧
    (1 ≤ (trace (fun _ => (0 : ℚ)) (fun _ _ => (0, 0)) 1 1 1 1 2 0 0).length ∧
     (trace (fun _ => (0 : ℚ)) (fun _ _ => (0, 0)) 1 1 1 1 2 0 0).length ≤ 2 + 1 ∧
     (trace (fun _ => (0 : ℚ)) (fun _ _ => (0, 0)) 1 1 1 1 2 0 0).head? =
       some ⟨(0 * 1, 0 * 1), 0⟩ ∧
     ((trace (fun _ => (0 : ℚ)) (fun _ _ => (0, 0)) 1 1 1 1 2 0 0).map Vertex.time).Chain'
       (· < ·)) :=
  ⟨by norm_num,
   C2_trace_shape (fun _ => (0 : ℚ)) (fun _ _ => (0, 0)) 1 1 1 1 0 0 2
     (by norm_num) (by norm_num)⟩

theorem traceFrom_divisor_chain (sq : α → α) (f : α → α → α × α)
    (speedScale segLen minSpeed cellSize : α)
    (hseg : 0 < segLen) (hmin : 0 < minSpeed) (hcell : 0 < cellSize)
    (hsq : ∀ a : α, 0 ≤ a → sq a * sq a = a) :
    ∀ (n : ℕ) (x y t : α),
      List.Chain
        (fun p q : Vertex α =>
          p.time < q.time ∧ p.position ≠ q.position ∧ segLenOf sq p q ≠ 0)
        ⟨(x * cellSize, y * cellSize), t⟩
        (traceFrom sq f speedScale segLen minSpeed cellSize n x y t) := by
  intro n
  induction n with
  | zero => intro x y t; simp [traceFrom]
  | succ n ih =>
    intro x y t
    rw [traceFrom]
    split
    · simp
    · rename_i hstop
      have hv : 0 < speedAt sq f speedScale x y :=
        lt_of_lt_of_le hmin (not_lt.mp hstop)
      have hvne : speedAt sq f speedScale x y ≠ 0 := ne_of_gt hv
      have hvv : vxAt f speedScale x y * vxAt f speedScale x y +
          vyAt f speedScale x y * vyAt f speedScale x y =
          speedAt sq f speedScale x y * speedAt sq f speedScale x y :=
        (hsq _ (add_nonneg (mul_self_nonneg _) (mul_self_nonneg _))).symm
      have hA : nextX sq f speedScale segLen x y * cellSize - x * cellSize =
          vxAt f speedScale x y *
            (segLen * cellSize / speedAt sq f speedScale x y) := by
        unfold nextX; ring
      have hB : nextY sq f speedScale segLen x y * cellSize - y * cellSize =
          vyAt f speedScale x y *
            (segLen * cellSize / speedAt sq f speedScale x y) := by
        unfold nextY; ring
      have hprod : speedAt sq f speedScale x y *
          (segLen * cellSize / speedAt sq f speedScale x y) = segLen * cellSize := by
        field_simp
      have hS : (nextX sq f speedScale segLen x y * cellSize - x * cellSize) *
            (nextX sq f speedScale segLen x y * cellSize - x * cellSize) +
          (nextY sq f speedScale segLen x y * cellSize - y * cellSize) *
            (nextY sq f speedScale segLen x y * cellSize - y * cellSize) =
          (segLen * cellSize) * (segLen * cellSize) := by
        rw [hA, hB]
        calc vxAt f speedScale x y * (segLen * cellSize / speedAt sq f speedScale x y) *
              (vxAt f speedScale x y * (segLen * cellSize / speedAt sq f speedScale x y)) +
            vyAt f speedScale x y * (segLen * cellSize / speedAt sq f speedScale x y) *
              (vyAt f speedScale x y * (segLen * cellSize / speedAt sq f speedScale x y)) =
            (vxAt f speedScale x y * vxAt f speedScale x y +
              vyAt f speedScale x y * vyAt f speedScale x y) *
              ((segLen * cellSize / speedAt sq f speedScale x y) *
               (segLen * cellSize / speedAt sq f speedScale x y)) := by ring
          _ = (speedAt sq f speedScale x y *
                (segLen * cellSize / speedAt sq f speedScale x y)) *
              (speedAt sq f speedScale x y *
                (segLen * cellSize / speedAt sq f speedScale x y)) := by
              rw [hvv]; ring
          _ = (segLen * cellSize) * (segLen * cellSize) := by rw [hprod]
      have hSne : segLen * cellSize ≠ 0 := ne_of_gt (mul_pos hseg hcell)
      refine List.Chain.cons ⟨?_, ?_, ?_⟩ (ih _ _ _)
      · show t < nextT sq f speedScale segLen x y t
        have : 0 < segLen / speedAt sq f speedScale x y := div_pos hseg hv
        simpa [nextT] using this
      · show (x * cellSize, y * cellSize) ≠ _
        intro hpos
        have h1 : x * cellSize = nextX sq f speedScale segLen x y * cellSize :=
          congrArg Prod.fst hpos
        have h2 : y * cellSize = nextY sq f speedScale segLen x y * cellSize :=
          congrArg Prod.snd hpos
        rw [← h1, ← h2] at hS
        simp only [sub_self, mul_zero, zero_mul, add_zero, zero_add] at hS
        exact hSne (mul_self_eq_zero.mp hS.symm)
      · show segLenOf sq _ _ ≠ 0
        unfold segLenOf
        simp only
        rw [hS]
        intro h0
        have := hsq ((segLen * cellSize) * (segLen * cellSize)) (mul_self_nonneg _)
        rw [h0, mul_zero] at this
        exact hSne (mul_self_eq_zero.mp this.symm)

/-- C3: on every streamline produced by `trace` with positive step length
(positive speed floor and cell size, as in the settings and data model),
consecutive vertices have strictly increasing times and distinct
positions, so the mesh builder's divisors — the time delta `t1 - t0` of
`speed = 1 / (t1 - t0)` and the segment length `l` of the perpendicular
`(-(y1-y0)/l, (x1-x0)/l)` — are nonzero on every consecutive pair: the
division-by-zero hazard is unreachable on tracer output.  `sq` must be a
genuine square root on nonnegative inputs, as `Math.sqrt` is. -/
theorem C3_trace_mesh_divisors_nonzero (sq : α → α) (f : α → α → α × α)
    (speedScale segLen minSpeed cellSize x0 y0 : α) (maxSteps : ℕ)
    (hseg : 0 < segLen) (hmin : 0 < minSpeed) (hcell : 0 < cellSize)
    (hsq : ∀ a : α, 0 ≤ a → sq a * sq a = a) :
    (trace sq f speedScale segLen minSpeed cellSize maxSteps x0 y0).Chain'
      (fun p q : Vertex α =>
        p.time < q.time ∧ q.time - p.time ≠ 0 ∧
        p.position ≠ q.position ∧ segLenOf sq p q ≠ 0) := by
  have base := traceFrom_divisor_chain sq f speedScale segLen minSpeed cellSize
    hseg hmin hcell hsq maxSteps x0 y0 0
  have imp : List.Chain
      (fun p q : Vertex α =>
        p.time < q.time ∧ q.time - p.time ≠ 0 ∧
        p.position ≠ q.position ∧ segLenOf sq p q ≠ 0)
      ⟨(x0 * cellSize, y0 * cellSize), 0⟩
      (traceFrom sq f speedScale segLen minSpeed cellSize maxSteps x0 y0 0) :=
    base.imp (fun p q h => ⟨h.1, sub_ne_zero.mpr (ne_of_gt h.1), h.2.1, h.2.2⟩)
  simpa [trace, List.Chain'] using imp

/-- Witness for C3 at a concrete input over `ℝ` with `Real.sqrt` for
`Math.sqrt`: the zero field, unit parameters, seed `(0, 0)`,
`maxSteps = 0`. -/
theorem C3_trace_mesh_divisors_nonzero_witness :
    ((0 : ℝ) < 1 ∧ (∀ a : ℝ, 0 ≤ a → Real.sqrt a * Real.sqrt a = a)) ∧
    (trace Real.sqrt (fun _ _ => (0, 0)) 1 1 1 1 0 0 0).Chain'
      (fun p q : Vertex ℝ =>
        p.time < q.time ∧ q.time - p.time ≠ 0 ∧
        p.position ≠ q.position ∧ segLenOf Real.sqrt p q ≠ 0) :=
  ⟨⟨by norm_num, fun a ha => Real.mul_self_sqrt ha⟩,
   C3_trace_mesh_divisors_nonzero Real.sqrt (fun _ _ => (0, 0)) 1 1 1 1 0 0 0
     (by norm_num) (by norm_num) (by norm_num) (fun a ha => Real.mul_self_sqrt ha)⟩

/-- C5: with a positive speed floor, a computed speed of exactly `0` stops
the trace before the normalization divide, exactly like any speed below
`minSpeed` (both fall into the `v < minSpeedThreshold` early return), and a
uniformly zero field yields the single-vertex streamline `[seed]` from
every seed point. -/
theorem C5_zero_speed_stop (sq : α → α) (f : α → α → α × α)
    (speedScale segLen minSpeed cellSize : α) (hmin : 0 < minSpeed) :
    (∀ (n : ℕ) (x y t : α), speedAt sq f speedScale x y = 0 →
        traceFrom sq f speedScale segLen minSpeed cellSize (n + 1) x y t = []) ∧
    (∀ (maxSteps : ℕ) (x0 y0 : α), (∀ a b, f a b = (0, 0)) → sq 0 = 0 →
        trace sq f speedScale segLen minSpeed cellSize maxSteps x0 y0 =
          [⟨(x0 * cellSize, y0 * cellSize), 0⟩]) := by
  constructor
  · intro n x y t h0
    rw [traceFrom, if_pos]
    rw [h0]
    exact hmin
  · intro maxSteps x0 y0 hf h0
    unfold trace
    congr 1
    cases maxSteps with
    | zero => rfl
    | succ n =>
      rw [traceFrom, if_pos]
      have hz : speedAt sq f speedScale x0 y0 = 0 := by
        simp [speedAt, vxAt, vyAt, hf, h0]
      rw [hz]
      exact hmin

/-- Witness for C5 at a concrete input: the uniformly zero field over `ℚ`
with unit parameters, seed `(0, 0)`, `maxSteps = 2`. -/
theorem C5_zero_speed_stop_witness :
    (0 : ℚ) < 1 ∧
    trace (fun _ => (0 : ℚ)) (fun _ _ => (0, 0)) 1 1 1 1 2 0 0 =
      [⟨(0 * 1, 0 * 1), 0⟩] :=
  ⟨by norm_num,
   (C5_zero_speed_stop (fun _ => (0 : ℚ)) (fun _ _ => (0, 0)) 1 1 1 1
     (by norm_num)).2 2 0 0 (fun _ _ => rfl) rfl⟩

/-! ### Theorems about the mesh builder -/

theorem segVertexData_length (sq : α → α) (r tot : α) (p0 p1 : Vertex α) :
    (segVertexData sq r tot p0 p1).length = 36 := rfl

theorem segIndicesFrom_zero (vc : ℕ) : segIndicesFrom vc 0 = [] := rfl

theorem segIndicesFrom_succ (vc n : ℕ) :
    segIndicesFrom vc (n + 1) = segIndexData vc ++ segIndicesFrom (vc + 4) n := rfl

theorem segIndicesFrom_length : ∀ (n vc : ℕ), (segIndicesFrom vc n).length = 6 * n := by
  intro n
  induction n with
  | zero => intro vc; rfl
  | succ n ih =>
    intro vc
    rw [segIndicesFrom_succ, List.length_append, ih]
    simp only [segIndexData, List.length_cons, List.length_nil]
    omega

theorem segIndicesFrom_lt : ∀ (n vc i : ℕ), i ∈ segIndicesFrom vc n → i < vc + 4 * n := by
  intro n
  induction n with
  | zero => intro vc i h; simp [segIndicesFrom_zero] at h
  | succ n ih =>
    intro vc i h
    rw [segIndicesFrom_succ] at h
    rcases List.mem_append.mp h with h | h
    · simp [segIndexData] at h
      omega
    · have := ih (vc + 4) i h
      omega

theorem segIndicesFrom_add : ∀ (a b vc : ℕ),
    segIndicesFrom vc (a + b) = segIndicesFrom vc a ++ segIndicesFrom (vc + 4 * a) b := by
  intro a
  induction a with
  | zero => intro b vc; simp [segIndicesFrom_zero]
  | succ a ih =>
    intro b vc
    have h1 : a + 1 + b = (a + b) + 1 := by omega
    rw [h1, segIndicesFrom_succ, segIndicesFrom_succ, ih, List.append_assoc]
    have h2 : vc + 4 + 4 * a = vc + 4 * (a + 1) := by omega
    rw [h2]

theorem buildSegments_cons_fst_length (sq : α → α) (r tot : α) :
    ∀ (l : List (Vertex α)) (p : Vertex α) (vc : ℕ),
      (buildSegments sq r tot (p :: l) vc).1.length = 36 * l.length := by
  intro l
  induction l with
  | nil => intro p vc; rfl
  | cons q tl ih =>
    intro p vc
    simp only [buildSegments]
    simp [segVertexData_length, ih]
    omega

theorem buildSegments_cons_snd (sq : α → α) (r tot : α) :
    ∀ (l : List (Vertex α)) (p : Vertex α) (vc : ℕ),
      (buildSegments sq r tot (p :: l) vc).2 = segIndicesFrom vc l.length := by
  intro l
  induction l with
  | nil => intro p vc; rfl
  | cons q tl ih =>
    intro p vc
    simp only [buildSegments]
    simp only [ih q (vc + 4), List.length_cons]
    rw [segIndicesFrom_succ]

theorem buildSegments_fst_length (sq : α → α) (r tot : α) (line : List (Vertex α)) (vc : ℕ) :
    (buildSegments sq r tot line vc).1.length = 36 * (line.length - 1) := by
  cases line with
  | nil => rfl
  | cons p l => simpa using buildSegments_cons_fst_length sq r tot l p vc

theorem buildSegments_snd (sq : α → α) (r tot : α) (line : List (Vertex α)) (vc : ℕ) :
    (buildSegments sq r tot line vc).2 = segIndicesFrom vc (line.length - 1) := by
  cases line with
  | nil => rfl
  | cons p l => simpa using buildSegments_cons_snd sq r tot l p vc

theorem totalSegments_cons (line : List (Vertex α)) (tl : List (List (Vertex α))) :
    totalSegments (line :: tl) = (line.length - 1) + totalSegments tl := by
  simp [totalSegments]

theorem buildLines_fst_length (sq : α → α) (rands : ℕ → α) :
    ∀ (lines : List (List (Vertex α))) (j vc : ℕ),
      (buildLines sq rands lines j vc).1.length = 36 * totalSegments lines := by
  intro lines
  induction lines with
  | nil => intro j vc; rfl
  | cons line tl ih =>
    intro j vc
    simp only [buildLines]
    simp only [List.length_append, buildSegments_fst_length, ih, totalSegments_cons]
    ring

theorem buildLines_snd (sq : α → α) (rands : ℕ → α) :
    ∀ (lines : List (List (Vertex α))) (j vc : ℕ),
      (buildLines sq rands lines j vc).2 = segIndicesFrom vc (totalSegments lines) := by
  intro lines
  induction lines with
  | nil => intro j vc; rfl
  | cons line tl ih =>
    intro j vc
    simp only [buildLines]
    simp only [buildSegments_snd, ih]
    rw [totalSegments_cons, segIndicesFrom_add]

/-- C1: on `n` lines where line `i` has `kᵢ ≥ 1` vertices, the mesh
builder produces exactly `4 · Σ(kᵢ − 1)` mesh vertices — `totalSegments`
is `Σ(kᵢ − 1)` and `vertexData` holds 9 numbers per vertex — and
`6 · Σ(kᵢ − 1)` indices; the index data is exactly the per-segment pattern
`(b, b+1, b+2, b+1, b+3, b+2)` with `b` the running vertex count before
the segment (`segIndicesFrom 0`), and every index is strictly below the
total vertex count. -/
theorem C1_mesh_counts (sq : α → α) (rands : ℕ → α) (lines : List (List (Vertex α)))
    (hne : ∀ l ∈ lines, 1 ≤ l.length) :
    (createStreamLinesMesh sq rands lines).vertexData.length =
      9 * (4 * totalSegments lines) ∧
    (createStreamLinesMesh sq rands lines).indexData.length = 6 * totalSegments lines ∧
    (createStreamLinesMesh sq rands lines).indexData =
      segIndicesFrom 0 (totalSegments lines) ∧
    ∀ i ∈ (createStreamLinesMesh sq rands lines).indexData,
      i < 4 * totalSegments lines := by
  refine ⟨?_, ?_, ?_, ?_⟩
  · show (buildLines sq rands lines 0 0).1.length = _
    rw [buildLines_fst_length]
    ring
  · show (buildLines sq rands lines 0 0).2.length = _
    rw [buildLines_snd, segIndicesFrom_length]
  · exact buildLines_snd sq rands lines 0 0
  · intro i hi
    have hi' : i ∈ segIndicesFrom 0 (totalSegments lines) := by
      rwa [show (createStreamLinesMesh sq rands lines).indexData =
        (buildLines sq rands lines 0 0).2 from rfl, buildLines_snd] at hi
    simpa using segIndicesFrom_lt (totalSegments lines) 0 i hi'

/-- Witness for C1 at a concrete input: one two-vertex line over `ℚ`. -/
theorem C1_mesh_counts_witness :
    (∀ l ∈ [[(⟨(0, 0), 0⟩ : Vertex ℚ), ⟨(1, 0), 1⟩]], 1 ≤ l.length) ∧
    ((createStreamLinesMesh (fun a : ℚ => a) (fun _ => 0)
        [[⟨(0, 0), 0⟩, ⟨(1, 0), 1⟩]]).vertexData.length =
      9 * (4 * totalSegments [[(⟨(0, 0), 0⟩ : Vertex ℚ), ⟨(1, 0), 1⟩]]) ∧
     (createStreamLinesMesh (fun a : ℚ => a) (fun _ => 0)
        [[⟨(0, 0), 0⟩, ⟨(1, 0), 1⟩]]).indexData.length =
      6 * totalSegments [[(⟨(0, 0), 0⟩ : Vertex ℚ), ⟨(1, 0), 1⟩]] ∧
     (createStreamLinesMesh (fun a : ℚ => a) (fun _ => 0)
        [[⟨(0, 0), 0⟩, ⟨(1, 0), 1⟩]]).indexData =
      segIndicesFrom 0 (totalSegments [[(⟨(0, 0), 0⟩ : Vertex ℚ), ⟨(1, 0), 1⟩]]) ∧
     ∀ i ∈ (createStreamLinesMesh (fun a : ℚ => a) (fun _ => 0)
        [[⟨(0, 0), 0⟩, ⟨(1, 0), 1⟩]]).indexData,
      i < 4 * totalSegments [[(⟨(0, 0), 0⟩ : Vertex ℚ), ⟨(1, 0), 1⟩]]) :=
  ⟨by simp,
   C1_mesh_counts (fun a : ℚ => a) (fun _ => 0) [[⟨(0, 0), 0⟩, ⟨(1, 0), 1⟩]] (by simp)⟩

/-- C4 fails on the code: the mesh builder of src/flow/shared.ts (lines
222–286) has no guard on degenerate consecutive vertex pairs.  On the
single line `[((0,0), t=0), ((0,0), t=0)]` — zero time delta and zero
segment length — the degenerate segment is emitted rather than skipped: 4
vertices (36 numbers) and 6 indices are produced.  In JavaScript the
emitted attributes contain `speed = 1/0 = Infinity` and
`ex = -0/0 = NaN`; this model over `ℚ` (where division by zero is total)
shows the segment is not skipped. -/
theorem C4_degenerate_segment_not_skipped :
    (createStreamLinesMesh (fun a : ℚ => a) (fun _ => 0)
        [[⟨(0, 0), 0⟩, ⟨(0, 0), 0⟩]]).vertexData.length = 36 ∧
    (createStreamLinesMesh (fun a : ℚ => a) (fun _ => 0)
        [[⟨(0, 0), 0⟩, ⟨(0, 0), 0⟩]]).indexData = [0, 1, 2, 1, 3, 2] := by
  constructor
  · rfl
  · rfl

/-! ### Theorems about the smoother -/

theorem foldlAccum_fst (w : ℤ → α) (inB : ℤ → Bool) (v0 v1 : ℤ → α) :
    ∀ (l : List ℤ) (a : α × α × α),
      (l.foldl (fun acc d =>
          if inB d then (acc.1 + w d, acc.2.1 + w d * v0 d, acc.2.2 + w d * v1 d)
          else acc) a).1 =
        a.1 + ((l.filter (fun d => inB d)).map w).sum := by
  intro l
  induction l with
  | nil => intro a; simp
  | cons d tl ih =>
    intro a
    cases hd : inB d with
    | false => simp [List.foldl_cons, hd, ih]
    | true =>
      simp only [List.foldl_cons, hd, if_true, List.filter_cons_of_pos hd,
        List.map_cons, List.sum_cons]
      rw [ih]
      simp only []
      ring

theorem foldlAccum_const (w : ℤ → α) (inB : ℤ → Bool) (v0 v1 : ℤ → α) (c0 c1 : α)
    (hc : ∀ d, inB d = true → v0 d = c0 ∧ v1 d = c1) :
    ∀ (l : List ℤ) (a : α × α × α),
      (l.foldl (fun acc d =>
          if inB d then (acc.1 + w d, acc.2.1 + w d * v0 d, acc.2.2 + w d * v1 d)
          else acc) a).2.1 =
        a.2.1 + ((l.filter (fun d => inB d)).map w).sum * c0 ∧
      (l.foldl (fun acc d =>
          if inB d then (acc.1 + w d, acc.2.1 + w d * v0 d, acc.2.2 + w d * v1 d)
          else acc) a).2.2 =
        a.2.2 + ((l.filter (fun d => inB d)).map w).sum * c1 := by
  intro l
  induction l with
  | nil => intro a; simp
  | cons d tl ih =>
    intro a
    cases hd : inB d with
    | false => simp [List.foldl_cons, hd, ih]
    | true =>
      simp only [List.foldl_cons, hd, if_true, List.filter_cons_of_pos hd,
        List.map_cons, List.sum_cons]
      refine ⟨?_, ?_⟩
      · rw [(ih _).1, (hc d hd).1]
        simp only []
        ring
      · rw [(ih _).2, (hc d hd).2]
        simp only []
        ring

theorem zero_mem_kernelOffsets (h : ℕ) : (0 : ℤ) ∈ kernelOffsets h := by
  have hm : h ∈ List.range (2 * h + 1) := List.mem_range.mpr (by omega)
  have hmap := List.mem_map_of_mem (fun j : ℕ => (j : ℤ) - (h : ℤ)) hm
  simpa [kernelOffsets] using hmap

theorem filterWeightSum_ge_one (w : ℤ → α) (inB : ℤ → Bool) (h : ℕ)
    (hw0 : w 0 = 1) (hw : ∀ d, 0 ≤ w d) (hb : inB 0 = true) :
    1 ≤ (((kernelOffsets h).filter (fun d => inB d)).map w).sum := by
  have hmem : w 0 ∈ ((kernelOffsets h).filter (fun d => inB d)).map w :=
    List.mem_map_of_mem w (List.mem_filter.mpr ⟨zero_mem_kernelOffsets h, hb⟩)
  have hnn : ∀ a ∈ ((kernelOffsets h).filter (fun d => inB d)).map w, 0 ≤ a := by
    intro a ha
    obtain ⟨d, _, rfl⟩ := List.mem_map.mp ha
    exact hw d
  calc (1 : α) = w 0 := hw0.symm
    _ ≤ _ := List.single_le_sum hnn _ hmem

theorem smoothAccum_fst_ge_one (w : ℤ → α) (h : ℕ) (inB : ℤ → Bool) (v0 v1 : ℤ → α)
    (hw0 : w 0 = 1) (hw : ∀ d, 0 ≤ w d) (hb : inB 0 = true) :
    1 ≤ (smoothAccum w h inB v0 v1).1 := by
  unfold smoothAccum
  rw [foldlAccum_fst]
  simpa using filterWeightSum_ge_one w inB h hw0 hw hb

theorem weightedOut_div (acc : α × α × α) (h1 : 1 ≤ acc.1) :
    weightedOut acc = (acc.2.1 / acc.1, acc.2.2 / acc.1) := by
  unfold weightedOut
  rw [if_neg, if_neg] <;>
    exact not_lt.mpr (le_trans (by norm_num [minWeightThreshold]) h1)

theorem smoothAccum_out (w : ℤ → α) (h : ℕ) (inB : ℤ → Bool) (v0 v1 : ℤ → α) (c0 c1 : α)
    (hw0 : w 0 = 1) (hw : ∀ d, 0 ≤ w d) (hb : inB 0 = true)
    (hc : ∀ d, inB d = true → v0 d = c0 ∧ v1 d = c1) :
    weightedOut (smoothAccum w h inB v0 v1) = (c0, c1) := by
  have hW : 1 ≤ (smoothAccum w h inB v0 v1).1 :=
    smoothAccum_fst_ge_one w h inB v0 v1 hw0 hw hb
  have hWne : (smoothAccum w h inB v0 v1).1 ≠ 0 :=
    ne_of_gt (lt_of_lt_of_le zero_lt_one hW)
  rw [weightedOut_div _ hW]
  have hfst : (smoothAccum w h inB v0 v1).1 =
      (((kernelOffsets h).filter (fun d => inB d)).map w).sum := by
    unfold smoothAccum
    rw [foldlAccum_fst]
    simp
  have hsnd := foldlAccum_const w inB v0 v1 c0 c1 hc (kernelOffsets h) (0, 0, 0)
  have h21 : (smoothAccum w h inB v0 v1).2.1 = (smoothAccum w h inB v0 v1).1 * c0 := by
    unfold smoothAccum
    rw [hsnd.1]
    unfold smoothAccum at hfst
    rw [hfst]
    simp
  have h22 : (smoothAccum w h inB v0 v1).2.2 = (smoothAccum w h inB v0 v1).1 * c1 := by
    unfold smoothAccum
    rw [hsnd.2]
    unfold smoothAccum at hfst
    rw [hfst]
    simp
  rw [h21, h22, mul_div_cancel_left₀ _ hWne, mul_div_cancel_left₀ _ hWne]

/-- C10: for every grid and every kernel (with `exp`-like weights:
`w 0 = 1`, all weights nonnegative) the accumulated `totalWeight` at every
in-bounds cell of both smoothing passes is at least `1`, which exceeds
`minWeightThreshold = 0.001`; therefore the guarded output-0 branch is
unreachable and each output channel is the genuine weighted average
`s / totalWeight`. -/
theorem C10_total_weight_floor (w : ℤ → α) (data : ℕ → α) (columns rows h x y : ℕ)
    (hw0 : w 0 = 1) (hw : ∀ d, 0 ≤ w d) (hx : x < columns) (hy : y < rows) :
    1 ≤ (hAccum w data columns h x y).1 ∧
    1 ≤ (vAccum w data columns rows h x y).1 ∧
    horizontalCell w data columns h x y =
      ((hAccum w data columns h x y).2.1 / (hAccum w data columns h x y).1,
       (hAccum w data columns h x y).2.2 / (hAccum w data columns h x y).1) ∧
    smoothCell w data columns rows h x y =
      ((vAccum w data columns rows h x y).2.1 / (vAccum w data columns rows h x y).1,
       (vAccum w data columns rows h x y).2.2 / (vAccum w data columns rows h x y).1) := by
  have hbx : inRange columns ((x : ℤ) + 0) = true := by
    simp only [inRange, Bool.and_eq_true, decide_eq_true_eq]
    omega
  have hby : inRange rows ((y : ℤ) + 0) = true := by
    simp only [inRange, Bool.and_eq_true, decide_eq_true_eq]
    omega
  have h1 : 1 ≤ (hAccum w data columns h x y).1 :=
    smoothAccum_fst_ge_one w h _ _ _ hw0 hw hbx
  have h2 : 1 ≤ (vAccum w data columns rows h x y).1 :=
    smoothAccum_fst_ge_one w h _ _ _ hw0 hw hby
  exact ⟨h1, h2, weightedOut_div _ h1, weightedOut_div _ h2⟩

/-- Witness for C10 at a concrete input: a 1×1 zero grid over `ℚ` with the
constant weight function. -/
theorem C10_total_weight_floor_witness :
    ((fun _ : ℤ => (1 : ℚ)) 0 = 1 ∧ (∀ d : ℤ, 0 ≤ (fun _ : ℤ => (1 : ℚ)) d) ∧
      0 < 1 ∧ 0 < 1) ∧
    (1 ≤ (hAccum (fun _ => (1 : ℚ)) (fun _ => 0) 1 0 0 0).1 ∧
     1 ≤ (vAccum (fun _ => (1 : ℚ)) (fun _ => 0) 1 1 0 0 0).1 ∧
     horizontalCell (fun _ => (1 : ℚ)) (fun _ => 0) 1 0 0 0 =
       ((hAccum (fun _ => (1 : ℚ)) (fun _ => 0) 1 0 0 0).2.1 /
          (hAccum (fun _ => (1 : ℚ)) (fun _ => 0) 1 0 0 0).1,
        (hAccum (fun _ => (1 : ℚ)) (fun _ => 0) 1 0 0 0).2.2 /
          (hAccum (fun _ => (1 : ℚ)) (fun _ => 0) 1 0 0 0).1) ∧
     smoothCell (fun _ => (1 : ℚ)) (fun _ => 0) 1 1 0 0 0 =
       ((vAccum (fun _ => (1 : ℚ)) (fun _ => 0) 1 1 0 0 0).2.1 /
          (vAccum (fun _ => (1 : ℚ)) (fun _ => 0) 1 1 0 0 0).1,
        (vAccum (fun _ => (1 : ℚ)) (fun _ => 0) 1 1 0 0 0).2.2 /
          (vAccum (fun _ => (1 : ℚ)) (fun _ => 0) 1 1 0 0 0).1)) :=
  ⟨⟨rfl, fun _ => by norm_num, by norm_num, by norm_num⟩,
   C10_total_weight_floor (fun _ => (1 : ℚ)) (fun _ => 0) 1 1 0 0 0 rfl
     (fun _ => by norm_num) (by norm_num) (by norm_num)⟩

/-- C6: smoothing a uniform-velocity grid is a no-op — exactly, over exact
field arithmetic: with `exp`-like weights (`w 0 = 1`, nonnegative), if
every in-bounds cell holds the same `(u, v)`, both passes return that
constant at every in-bounds cell, so the smoothed grid equals its input
there. -/
theorem C6_smooth_uniform (w : ℤ → α) (data : ℕ → α) (columns rows h x y : ℕ) (u v : α)
    (hw0 : w 0 = 1) (hw : ∀ d, 0 ≤ w d)
    (hdata : ∀ x' y' : ℕ, x' < columns → y' < rows →
        data (2 * (y' * columns + x')) = u ∧ data (2 * (y' * columns + x') + 1) = v)
    (hx : x < columns) (hy : y < rows) :
    smoothCell w data columns rows h x y = (u, v) ∧
    smoothCell w data columns rows h x y =
      (data (2 * (y * columns + x)), data (2 * (y * columns + x) + 1)) := by
  have hH : ∀ x' y' : ℕ, x' < columns → y' < rows →
      horizontalCell w data columns h x' y' = (u, v) := by
    intro x' y' hx' hy'
    unfold horizontalCell hAccum
    apply smoothAccum_out w h _ _ _ u v hw0 hw
    · simp only [inRange, Bool.and_eq_true, decide_eq_true_eq]
      omega
    · intro d hd
      simp only [inRange, Bool.and_eq_true, decide_eq_true_eq] at hd
      have hlt : ((x' : ℤ) + d).toNat < columns := by omega
      exact hdata _ y' hlt hy'
  have hmain : smoothCell w data columns rows h x y = (u, v) := by
    unfold smoothCell vAccum
    apply smoothAccum_out w h _ _ _ u v hw0 hw
    · simp only [inRange, Bool.and_eq_true, decide_eq_true_eq]
      omega
    · intro d hd
      simp only [inRange, Bool.and_eq_true, decide_eq_true_eq] at hd
      have hlt : ((y : ℤ) + d).toNat < rows := by omega
      have := hH x (((y : ℤ) + d).toNat) hx hlt
      exact ⟨by rw [this], by rw [this]⟩
  refine ⟨hmain, ?_⟩
  rw [hmain, (hdata x y hx hy).1, (hdata x y hx hy).2]

/-- Witness for C6 at a concrete input: a 1×1 grid over `ℚ` with constant
value 3 in both channels and the constant weight function. -/
theorem C6_smooth_uniform_witness :
    ((fun _ : ℤ => (1 : ℚ)) 0 = 1 ∧ (∀ d : ℤ, 0 ≤ (fun _ : ℤ => (1 : ℚ)) d) ∧
      0 < 1 ∧ 0 < 1) ∧
    (smoothCell (fun _ => (1 : ℚ)) (fun _ => 3) 1 1 0 0 0 = (3, 3) ∧
     smoothCell (fun _ => (1 : ℚ)) (fun _ => 3) 1 1 0 0 0 =
       ((fun _ : ℕ => (3 : ℚ)) (2 * (0 * 1 + 0)), (fun _ : ℕ => (3 : ℚ)) (2 * (0 * 1 + 0) + 1))) :=
  ⟨⟨rfl, fun _ => by norm_num, by norm_num, by norm_num⟩,
   C6_smooth_uniform (fun _ => (1 : ℚ)) (fun _ => 3) 1 1 0 0 0 3 3 rfl
     (fun _ => by norm_num) (fun _ _ _ _ => ⟨rfl, rfl⟩) (by norm_num) (by norm_num)⟩

/-! ### Theorems about the batch generator -/

theorem getStreamLinesLoop_eq [FloorRing α] (sq : α → α) (f : α → α → α × α)
    (columns rows : ℕ) (cellSize speedScale segLen minSpeed : α) (maxSteps : ℕ)
    (rands : ℕ → α) :
    ∀ (n i : ℕ),
      getStreamLinesLoop sq f columns rows cellSize speedScale segLen minSpeed maxSteps
          rands n i =
        (List.range n).map (fun s =>
          trace sq f speedScale segLen minSpeed cellSize maxSteps
            ((jround (rands (2 * (i + s)) * (columns : α)) : ℤ) : α)
            ((jround (rands (2 * (i + s) + 1) * (rows : α)) : ℤ) : α)) := by
  intro n
  induction n with
  | zero => intro i; rfl
  | succ n ih =>
    intro i
    have htail :
        List.map ((fun s =>
            trace sq f speedScale segLen minSpeed cellSize maxSteps
              ((jround (rands (2 * (i + s)) * (columns : α)) : ℤ) : α)
              ((jround (rands (2 * (i + s) + 1) * (rows : α)) : ℤ) : α)) ∘ Nat.succ)
          (List.range n) =
        getStreamLinesLoop sq f columns rows cellSize speedScale segLen minSpeed maxSteps
          rands n (i + 1) := by
      rw [ih (i + 1)]
      apply List.map_congr_left
      intro s _
      simp only [Function.comp_apply]
      have he : i + (s + 1) = i + 1 + s := by omega
      rw [he]
    rw [getStreamLinesLoop, List.range_succ_eq_map]
    simp only [List.map_cons, List.map_map]
    rw [htail]
    simp

/-- C7: the batch generator draws exactly `count` seed points from the
supplied random stream — seed `i` is
`(round(rᵢ₀ * columns), round(rᵢ₁ * rows))` with `rᵢ₀, rᵢ₁` the `2i`-th and
`(2i+1)`-th draws, the image under scaling of the unit-interval random
source over `[0, columns] × [0, rows]` — calls the tracer once per seed,
and the output list of streamlines matches the seed draw order with no
reordering. -/
theorem C7_batch_order [FloorRing α] (sq : α → α) (f : α → α → α × α)
    (columns rows : ℕ) (cellSize speedScale segLen minSpeed : α) (maxSteps : ℕ)
    (rands : ℕ → α) (count : ℕ) :
    (getStreamLines sq f columns rows cellSize speedScale segLen minSpeed maxSteps
        rands count).length = count ∧
    getStreamLines sq f columns rows cellSize speedScale segLen minSpeed maxSteps
        rands count =
      (List.range count).map (fun i =>
        trace sq f speedScale segLen minSpeed cellSize maxSteps
          ((jround (rands (2 * i) * (columns : α)) : ℤ) : α)
          ((jround (rands (2 * i + 1) * (rows : α)) : ℤ) : α)) := by
  have h := getStreamLinesLoop_eq sq f columns rows cellSize speedScale segLen minSpeed
    maxSteps rands count 0
  rw [getStreamLines, h]
  simp

/-! ### Theorems about the cooperative driver -/

theorem driveLoop_never_partial (sq : α → α) (rands : ℕ → α) (quanta : ℚ)
    (clock : ℕ → ℚ) (signal : ℕ → Bool) :
    ∀ (lines : List (List (Vertex α))) (j vc k : ℕ) (restTime : ℚ)
      (acc : List α × List ℕ),
      driveLoop sq rands quanta clock signal lines j vc k restTime acc = .error () ∨
      driveLoop sq rands quanta clock signal lines j vc k restTime acc =
        .ok ⟨acc.1 ++ (buildLines sq rands lines j vc).1,
             acc.2 ++ (buildLines sq rands lines j vc).2⟩ := by
  intro lines
  induction lines with
  | nil => intro j vc k rt acc; right; simp [driveLoop, buildLines]
  | cons line tl ih =>
    intro j vc k rt acc
    rw [driveLoop]
    split
    · split
      · left; rfl
      · rcases ih (j + 1) (vc + 4 * (line.length - 1)) (k + 1) (clock k)
            (acc.1 ++ (buildSegments sq (rands j) (lineTotalTime line) line vc).1,
             acc.2 ++ (buildSegments sq (rands j) (lineTotalTime line) line vc).2)
          with h | h
        · left; exact h
        · right; rw [h]; simp [buildLines, List.append_assoc]
    · rcases ih (j + 1) (vc + 4 * (line.length - 1)) (k + 1) rt
          (acc.1 ++ (buildSegments sq (rands j) (lineTotalTime line) line vc).1,
           acc.2 ++ (buildSegments sq (rands j) (lineTotalTime line) line vc).2)
        with h | h
      · left; exact h
      · right; rw [h]; simp [buildLines, List.append_assoc]

/-- C9 (amended): the driver never returns a partially filled mesh — every
run resolves either as cancelled or with the complete mesh of all lines —
and from every driver state with at least one line remaining (any point of
the batch: `remaining` lines left, random index `j`, running vertex count
`vc`, checkpoint index `k`, last rest time `restTime`, accumulated data
`acc`), if the processing quantum has elapsed at that checkpoint and the
cancellation signal is set there, the loop resolves as cancelled before
that line's contribution.  A cancellation set before any yield point does
not by itself prevent a (complete) mesh from being returned, because the
signal is only consulted at quantum-triggered yield points. -/
theorem C9_cancellation_no_partial_mesh (sq : α → α) (rands : ℕ → α) (quanta : ℚ)
    (clock : ℕ → ℚ) (signal : ℕ → Bool) (lines : List (List (Vertex α))) :
    (createStreamLinesMeshAsync sq rands quanta clock signal lines = .error () ∨
     createStreamLinesMeshAsync sq rands quanta clock signal lines =
       .ok (createStreamLinesMesh sq rands lines)) ∧
    (∀ (remaining : List (List (Vertex α))) (j vc k : ℕ) (restTime : ℚ)
       (acc : List α × List ℕ),
      remaining ≠ [] → quanta < clock k - restTime → signal k = true →
      driveLoop sq rands quanta clock signal remaining j vc k restTime acc =
        .error ()) := by
  constructor
  · rcases driveLoop_never_partial sq rands quanta clock signal lines 0 0 1 (clock 0)
        ([], []) with h | h
    · left; exact h
    · right
      rw [createStreamLinesMeshAsync, h]
      simp [createStreamLinesMesh]
  · intro remaining j vc k restTime acc hne hq hs
    cases remaining with
    | nil => exact absurd rfl hne
    | cons line tl =>
      rw [driveLoop, if_pos hq, if_pos (show restAborts signal k = true from hs)]

/-- Witness for the amended C9 at a concrete input: one line over `ℚ`, the
signal set, a mid-batch driver state (checkpoint index 5, nonempty
accumulator), `quanta = 0` and an advancing clock, so the checkpoint
triggers and the loop resolves cancelled; the dichotomy conjunct holds at
the same arguments. -/
theorem C9_cancellation_no_partial_mesh_witness :
    (([[(⟨(0, 0), 0⟩ : Vertex ℚ), ⟨(1, 0), 1⟩]] : List (List (Vertex ℚ))) ≠ [] ∧
     (0 : ℚ) < (fun k : ℕ => (k : ℚ)) 5 - 0 ∧
     (fun _ : ℕ => true) 5 = true) ∧
    driveLoop (fun a : ℚ => a) (fun _ => 0) 0 (fun k : ℕ => (k : ℚ)) (fun _ => true)
        [[⟨(0, 0), 0⟩, ⟨(1, 0), 1⟩]] 3 12 5 0 ([1], [2]) = .error () :=
  ⟨⟨by simp, by norm_num, rfl⟩,
   (C9_cancellation_no_partial_mesh (fun a : ℚ => a) (fun _ => 0) 0 (fun k : ℕ => (k : ℚ))
       (fun _ => true) [[⟨(0, 0), 0⟩, ⟨(1, 0), 1⟩]]).2
     [[⟨(0, 0), 0⟩, ⟨(1, 0), 1⟩]] 3 12 5 0 ([1], [2]) (by simp) (by norm_num) rfl⟩

/-- C9 as stated fails on the code: with the cancellation signal set from
the very start but the processing quantum never elapsing (a constant
clock), the driver never reaches a yield point, never observes the
signal, and returns the complete (nonempty) mesh instead of resolving as
cancelled. -/
theorem C9_cancel_before_yield_counterexample :
    createStreamLinesMeshAsync (fun a : ℚ => a) (fun _ => 0) 100 (fun _ => 0)
        (fun _ => true) [[⟨(0, 0), 0⟩, ⟨(1, 0), 1⟩]] =
      .ok (createStreamLinesMesh (fun a : ℚ => a) (fun _ => 0)
        [[⟨(0, 0), 0⟩, ⟨(1, 0), 1⟩]]) ∧
    (createStreamLinesMesh (fun a : ℚ => a) (fun _ => 0)
        [[⟨(0, 0), 0⟩, ⟨(1, 0), 1⟩]]).vertexData ≠ [] := by
  constructor
  · rw [createStreamLinesMeshAsync, driveLoop, if_neg (by norm_num), driveLoop]
    simp [createStreamLinesMesh, buildLines]
  · decide

/-! ### Theorems about the execution context adapter -/

theorem throwIfAborted_of_clear {signal : ℕ → Bool} (hs : signal 0 = false) :
    throwIfAborted signal = .ok () := by
  unfold throwIfAborted
  rw [hs]
  rfl

theorem throwIfAborted_of_set {signal : ℕ → Bool} (hs : signal 0 = true) :
    throwIfAborted signal = .error () := by
  unfold throwIfAborted
  rw [hs]
  rfl

/-- C8: for identical grids, smoothing parameters and random streams, the
local path (`MainFlowProcessor`) and the delegated path
(`WorkerFlowProcessor`, with the worker side modelled from spec §4.7 as
the identical pipeline over the transferred buffer) produce bit-for-bit
identical Mesh output: whenever the signal is not already set at the
delegated path's pre-invoke abort check — the one boundary-crossing
failure mode spec §4.7 grants the delegated path — the two processors
return the same result outright, and in every case a mesh returned by the
delegated path is exactly the mesh the local path returns. -/
theorem C8_processor_equivalence [FloorRing α] (w : ℤ → α) (h : ℕ) (sq : α → α)
    (randsSeeds randsMesh : ℕ → α) (speedScale segLen minSpeed : α)
    (maxSteps count : ℕ) (quanta : ℚ) (clock : ℕ → ℚ) (signal : ℕ → Bool)
    (fd : FlowData α) :
    (signal 0 = false →
      workerFlowProcessor w h sq randsSeeds randsMesh speedScale segLen minSpeed
          maxSteps count quanta clock signal fd =
        mainFlowProcessor w h sq randsSeeds randsMesh speedScale segLen minSpeed
          maxSteps count quanta clock signal fd) ∧
    (∀ m : Mesh α,
      workerFlowProcessor w h sq randsSeeds randsMesh speedScale segLen minSpeed
          maxSteps count quanta clock signal fd = .ok m →
      mainFlowProcessor w h sq randsSeeds randsMesh speedScale segLen minSpeed
          maxSteps count quanta clock signal fd = .ok m) := by
  have hfd : ofTransferable (toTransferable fd) = fd := rfl
  constructor
  · intro hs
    unfold workerFlowProcessor
    rw [throwIfAborted_of_clear hs]
    unfold workerRemoteInvoke mainFlowProcessor
    rw [hfd]
    cases hres : createStreamLinesMeshFromData w h sq randsSeeds randsMesh speedScale
        segLen minSpeed maxSteps count quanta clock signal fd with
    | error e => rfl
    | ok m => rfl
  · intro m hm
    cases hsig : signal 0 with
    | true =>
      unfold workerFlowProcessor at hm
      rw [throwIfAborted_of_set hsig] at hm
      simp at hm
    | false =>
      unfold workerFlowProcessor at hm
      rw [throwIfAborted_of_clear hsig] at hm
      unfold workerRemoteInvoke at hm
      rw [hfd] at hm
      unfold mainFlowProcessor
      cases hres : createStreamLinesMeshFromData w h sq randsSeeds randsMesh speedScale
          segLen minSpeed maxSteps count quanta clock signal fd with
      | error e =>
        rw [hres] at hm
        simp at hm
      | ok m2 =>
        rw [hres] at hm
        simp only [] at hm
        exact congrArg Except.ok (Except.ok.inj hm)

/-- Witness for C8 at a concrete input: a 1×1 grid over `ℚ`, constant
weights, identity square root, zero random streams, a clear signal. -/
theorem C8_processor_equivalence_witness :
    ((fun _ : ℕ => false) 0 = false) ∧
    workerFlowProcessor (fun _ => (1 : ℚ)) 0 (fun a => a) (fun _ => 0) (fun _ => 0)
        1 1 1 0 1 100 (fun _ => 0) (fun _ => false) ⟨fun _ => 0, 1, 1, 1⟩ =
      mainFlowProcessor (fun _ => (1 : ℚ)) 0 (fun a => a) (fun _ => 0) (fun _ => 0)
        1 1 1 0 1 100 (fun _ => 0) (fun _ => false) ⟨fun _ => 0, 1, 1, 1⟩ :=
  ⟨rfl,
   (C8_processor_equivalence (fun _ => (1 : ℚ)) 0 (fun a => a) (fun _ => 0) (fun _ => 0)
     1 1 1 0 1 100 (fun _ => 0) (fun _ => false) ⟨fun _ => 0, 1, 1, 1⟩).1 rfl⟩

end Flow
